import Mathlib

/-!
Verification of the hours-worked reporting pipeline.

The program computes, from declarative period tables (work schedule, holidays,
salary rates), the weekly work dates from a derived start date until "now",
groups them by month and prices each month.  Dates are plain
`{year, month, day}` records ("structured dates"); the program converts them to
JavaScript `Date` values for calendar arithmetic (adding days, reading the
weekday).  We model a JavaScript `Date` by its day number (days since
1970-01-01 in the local calendar, the value of `getTime()` divided by the
milliseconds of one day); `toDayNum` models `dateFromStructured` (including the
month/day normalisation `new Date(year, month - 1, day)` performs) and
`fromDayNum` models `structuredFromDate`.  Both directions use the standard
civil-calendar conversion on the proleptic Gregorian calendar, which is what
JavaScript `Date` implements for local dates (the program never uses time
components).  Numbers are modelled as integers.
-/

namespace HoursWorked

/-- A structured date `{ year, month, day }` as used throughout the program. -/
structure StructuredDate where
  year : Int
  month : Int
  day : Int
  deriving DecidableEq, Repr

/-- Source `valueOfStructured`: the comparable numeric form `year*10000 + month*100 + day`. -/
def valueOfStructured (sd : StructuredDate) : Int :=
  sd.year * 10000 + sd.month * 100 + sd.day

/-- Gregorian leap-year rule (as implemented by JavaScript `Date`). -/
def isLeapYear (y : Int) : Bool :=
  (y % 4 == 0 && y % 100 != 0) || (y % 400 == 0)

/-- Number of days in a month of the Gregorian calendar. -/
def daysInMonth (y m : Int) : Int :=
  if m = 2 then (if isLeapYear y then 29 else 28)
  else if m = 4 ∨ m = 6 ∨ m = 9 ∨ m = 11 then 30
  else 31

/-- Day number of the first day of month `m` of year `y` (for `1 ≤ m ≤ 12`),
relative to 1970-01-01.  Uses the standard shifted-year decomposition of the
civil calendar (years run March..February, so the leap day is the last day of
the shifted year). -/
def monthStartNum (y m : Int) : Int :=
  if m ≤ 2 then
    365 * (y - 1) + (y - 1) / 4 - (y - 1) / 100 + (y - 1) / 400
      + (153 * (m + 9) + 2) / 5 - 719468
  else
    365 * y + y / 4 - y / 100 + y / 400 + (153 * (m - 3) + 2) / 5 - 719468

/-- Day number of a structured date; models `dateFromStructured`, i.e.
`new Date(sd.year, sd.month - 1, sd.day)`, including the normalisation
JavaScript performs on out-of-range month and day values. -/
def toDayNum (sd : StructuredDate) : Int :=
  monthStartNum (sd.year + (sd.month - 1) / 12) ((sd.month - 1) % 12 + 1) + (sd.day - 1)

/-- Structured date of a day number; models `structuredFromDate` applied to the
JavaScript `Date` with that day number (Howard Hinnant's `civil_from_days`). -/
def fromDayNum (z : Int) : StructuredDate :=
  let zs := z + 719468
  let era := zs / 146097
  let doe := zs % 146097
  let yoe := (doe - doe / 1460 + doe / 36524 - doe / 146096) / 365
  let y := yoe + era * 400
  let doy := doe - (365 * yoe + yoe / 4 - yoe / 100)
  let mp := (5 * doy + 2) / 153
  let d := doy - (153 * mp + 2) / 5 + 1
  let m := if mp < 10 then mp + 3 else mp - 9
  { year := if m ≤ 2 then y + 1 else y, month := m, day := d }

/-- A structured date is a valid civil date (JavaScript `Date` normalisation
keeps it unchanged). -/
def isValidDate (sd : StructuredDate) : Prop :=
  1 ≤ sd.month ∧ sd.month ≤ 12 ∧ 1 ≤ sd.day ∧ sd.day ≤ daysInMonth sd.year sd.month

instance (sd : StructuredDate) : Decidable (isValidDate sd) := by
  unfold isValidDate; infer_instance

/-- Weekday of a day number; models `Date.prototype.getDay` (0 = Sunday).
1970-01-01 was a Thursday. -/
def getDayNum (z : Int) : Int := (z + 4) % 7

/-- Source `addWeek`: convert to a `Date`, add 7 days, convert back. -/
def addWeek (sd : StructuredDate) : StructuredDate :=
  fromDayNum (toDayNum sd + 7)

/-- A dated period `{ from, to? }` carrying a payload of extra fields.
`toDate = none` models an absent `to` (open-ended period). -/
structure PeriodOf (α : Type) where
  fromDate : StructuredDate
  toDate : Option StructuredDate
  payload : α
  deriving DecidableEq, Repr

/-- Extra fields of a work template entry. -/
structure WorkInfo where
  weekDay : Int
  hoursPerWeek : Int
  deriving DecidableEq, Repr

/-- Extra fields of a salary period. -/
structure SalaryInfo where
  salaryPerHour : Int
  deriving DecidableEq, Repr

abbrev WorkPeriod := PeriodOf WorkInfo
abbrev HolidayPeriod := PeriodOf Unit
abbrev SalaryPeriod := PeriodOf SalaryInfo

/-- A date together with hours worked. -/
structure DateWithHours where
  date : StructuredDate
  hoursWorked : Int
  deriving DecidableEq, Repr

/-- A month group of hours worked. -/
structure MonthAggregate where
  year : Int
  month : Int
  hoursWorked : Int
  concernedDates : List StructuredDate
  deriving DecidableEq, Repr

/-- A month group with the monthly salary charge. -/
structure SalaryGroup where
  year : Int
  month : Int
  hoursWorked : Int
  monthlySalaryChargesExcluded : Int
  deriving DecidableEq, Repr

/-- Source `getMatchingPeriod`: scan the table in order; return the first period whose
`from` is `≤ sd` and which is open-ended or has `sd ≤ to`; otherwise keep
scanning; return `none` (JavaScript `undefined`) when the list is exhausted. -/
def getMatchingPeriod {α : Type} : List (PeriodOf α) → StructuredDate → Option (PeriodOf α)
  | [], _ => none
  | period :: rest, sd =>
    if valueOfStructured period.fromDate ≤ valueOfStructured sd then
      match period.toDate with
      | none => some period
      | some t =>
        if valueOfStructured sd ≤ valueOfStructured t then some period
        else getMatchingPeriod rest sd
    else getMatchingPeriod rest sd

/-- Source `getMatchingPeriod` together with the position of the returned entry.  Two
entries of a parsed JSON array are distinct objects even when they have equal
fields, so JavaScript reference equality (`===`) of results of
`getMatchingPeriod` on the same table is equality of positions; the position
returned here stands for the object identity of the entry. -/
def getMatchingPeriodIdxAux {α : Type} (sd : StructuredDate) :
    Nat → List (PeriodOf α) → Option (Nat × PeriodOf α)
  | _, [] => none
  | i, period :: rest =>
    if valueOfStructured period.fromDate ≤ valueOfStructured sd then
      match period.toDate with
      | none => some (i, period)
      | some t =>
        if valueOfStructured sd ≤ valueOfStructured t then some (i, period)
        else getMatchingPeriodIdxAux sd (i + 1) rest
    else getMatchingPeriodIdxAux sd (i + 1) rest

def getMatchingPeriodIdx {α : Type} (l : List (PeriodOf α)) (sd : StructuredDate) :
    Option (Nat × PeriodOf α) :=
  getMatchingPeriodIdxAux sd 0 l

/-- One iteration of the `datesUntilNow` loop body after the `yield`: look up
the period of `d` and of `d + 7 days`; if they are the same table entry
(JavaScript `===`, i.e. same position, with `undefined === undefined` giving
`true` when both lookups fail) advance by a week, otherwise re-anchor to the
new period's `from`.  Dereferencing `nextPeriod.from` when the second lookup
returned `undefined` throws; `none` models that crash. -/
def weekStep (template : List WorkPeriod) (d : StructuredDate) : Option StructuredDate :=
  if (getMatchingPeriodIdx template d).map Prod.fst
      = (getMatchingPeriodIdx template (addWeek d)).map Prod.fst then
    some (addWeek d)
  else
    match getMatchingPeriodIdx template (addWeek d) with
    | some (_, q) => some q.fromDate
    | none => none

/-- How a (fuel-bounded) run of the `datesUntilNow` generator ended. -/
inductive WalkResult where
  | done : WalkResult
  | crash : WalkResult
  | fuelOut : WalkResult
  deriving DecidableEq, Repr

/-- Source `datesUntilNow`, fuel-bounded: while `dateFromStructured d <= new Date()`
(i.e. the day number of `d` is at most `now`, the day number of the current
date), yield `d` and advance with `weekStep`.  Returns the list of yielded
dates together with how the run ended (`crash` models the TypeError thrown on
`nextPeriod.from` when no period covers the next week). -/
def datesUntilNowFuel (template : List WorkPeriod) (now : Int) :
    Nat → StructuredDate → List StructuredDate × WalkResult
  | 0, _ => ([], WalkResult.fuelOut)
  | fuel + 1, d =>
    if toDayNum d ≤ now then
      match weekStep template d with
      | none => ([d], WalkResult.crash)
      | some d' =>
        (d :: (datesUntilNowFuel template now fuel d').1,
          (datesUntilNowFuel template now fuel d').2)
    else ([], WalkResult.done)

/-- Source `createMentionHours template` applied to a date: look up the covering work
period; the thrown `Error` when none is found is modelled by `none`; otherwise
pair the date with the period's `hoursPerWeek`. -/
def mentionHours (template : List WorkPeriod) (sd : StructuredDate) : Option DateWithHours :=
  match getMatchingPeriod template sd with
  | none => none
  | some p => some { date := sd, hoursWorked := p.payload.hoursPerWeek }

/-- Source `createMentionSalary salary` applied to a month group: probe day 1 of the
group's month; the TypeError on `salaryPeriod.salaryPerHour` when no salary
period covers it is modelled by `none`. -/
def mentionSalary (salary : List SalaryPeriod) (g : MonthAggregate) : Option SalaryGroup :=
  match getMatchingPeriod salary { year := g.year, month := g.month, day := 1 } with
  | none => none
  | some p =>
    some { year := g.year, month := g.month, hoursWorked := g.hoursWorked,
           monthlySalaryChargesExcluded := g.hoursWorked * p.payload.salaryPerHour }

/-- Loop of `groupByMonth` with the current accumulator: matching entries are
folded into the accumulator, a month change emits the accumulator and starts a
fresh one, and the final accumulator is emitted at the end of the input. -/
def groupByMonthGo (acc : MonthAggregate) : List DateWithHours → List MonthAggregate
  | [] => [acc]
  | dh :: rest =>
    if dh.date.year = acc.year ∧ dh.date.month = acc.month then
      groupByMonthGo
        { acc with hoursWorked := acc.hoursWorked + dh.hoursWorked,
                   concernedDates := acc.concernedDates ++ [dh.date] } rest
    else
      acc :: groupByMonthGo
        { year := dh.date.year, month := dh.date.month, hoursWorked := dh.hoursWorked,
          concernedDates := [dh.date] } rest

/-- Source `groupByMonth`: empty input emits nothing; otherwise seed an accumulator
with the first element's month and zero hours and run the loop over the whole
input (the first element is folded into its own seed). -/
def groupByMonth : List DateWithHours → List MonthAggregate
  | [] => []
  | dh :: rest =>
    groupByMonthGo
      { year := dh.date.year, month := dh.date.month, hoursWorked := 0, concernedDates := [] }
      (dh :: rest)

/-- Source `advanceToWeekDay`, fuel-bounded: step one day at a time until the weekday
matches; `none` models non-termination within the given fuel. -/
def advanceToWeekDayF : Nat → Int → Int → Option Int
  | 0, _, _ => none
  | fuel + 1, z, weekDay =>
    if getDayNum z = weekDay then some z
    else advanceToWeekDayF fuel (z + 1) weekDay

/-- The per-entry work of `getStartDate`: align each entry's `from` date to the
entry's `weekDay` (as a `Date`, i.e. a day number) and convert back; `none`
when some alignment does not terminate within the fuel. -/
def alignedDates (fuel : Nat) : List WorkPeriod → Option (List StructuredDate)
  | [] => some []
  | wp :: rest =>
    match advanceToWeekDayF fuel (toDayNum wp.fromDate) wp.payload.weekDay with
    | none => none
    | some z =>
      match alignedDates fuel rest with
      | none => none
      | some l => some (fromDayNum z :: l)

/-- Source `getStartDate`: the `valueOfStructured`-least of the aligned dates (seeded
with the first aligned date; an empty template yields JavaScript `undefined`,
modelled by `none`). -/
def getStartDate (fuel : Nat) (template : List WorkPeriod) : Option StructuredDate :=
  match alignedDates fuel template with
  | none => none
  | some [] => none
  | some (x :: xs) =>
    some ((x :: xs).foldl
      (fun mn dt => if valueOfStructured dt < valueOfStructured mn then dt else mn) x)

/-! Specification-side predicates, stated from the specification's wording. -/

/-- The specification's coverage condition: `p.from <= date` and (`p.to` absent
or `date <= p.to`), in the total order `year*10000 + month*100 + day` the
specification defines on calendar dates. -/
def Covers {α : Type} (p : PeriodOf α) (sd : StructuredDate) : Prop :=
  valueOfStructured p.fromDate ≤ valueOfStructured sd ∧
  (p.toDate = none ∨
    ∃ t, p.toDate = some t ∧ valueOfStructured sd ≤ valueOfStructured t)

instance {α : Type} (p : PeriodOf α) (sd : StructuredDate) : Decidable (Covers p sd) :=
  match h : p.toDate with
  | none =>
    decidable_of_iff (valueOfStructured p.fromDate ≤ valueOfStructured sd)
      (by unfold Covers; simp [h])
  | some t =>
    decidable_of_iff
      (valueOfStructured p.fromDate ≤ valueOfStructured sd ∧
        valueOfStructured sd ≤ valueOfStructured t)
      (by unfold Covers; simp [h])

/-- Predicate: `p` is the entry at position `i` of the table, it covers `sd`, and no
earlier entry covers `sd` (the specification's "first such entry in table
order"). -/
def IsFirstMatch {α : Type} (l : List (PeriodOf α)) (sd : StructuredDate)
    (i : Nat) (p : PeriodOf α) : Prop :=
  l[i]? = some p ∧ Covers p sd ∧ ∀ q ∈ l.take i, ¬ Covers q sd

instance {α : Type} [DecidableEq α] (l : List (PeriodOf α)) (sd : StructuredDate)
    (i : Nat) (p : PeriodOf α) : Decidable (IsFirstMatch l sd i p) := by
  unfold IsFirstMatch
  infer_instance

/-- No date is covered by two (positionally distinct) entries of the table. -/
def NoOverlap {α : Type} (l : List (PeriodOf α)) : Prop :=
  l.Pairwise (fun p q => ∀ sd, ¬ (Covers p sd ∧ Covers q sd))

/-- Validity of an optional period end. -/
def OptDateValid : Option StructuredDate → Prop
  | none => True
  | some e => isValidDate e

instance : (o : Option StructuredDate) → Decidable (OptDateValid o)
  | none => Decidable.isTrue trivial
  | some e => inferInstanceAs (Decidable (isValidDate e))

/-- Every boundary date appearing in the table is a valid civil date. -/
def TableValid {α : Type} (l : List (PeriodOf α)) : Prop :=
  ∀ p ∈ l, isValidDate p.fromDate ∧ OptDateValid p.toDate

instance {α : Type} (l : List (PeriodOf α)) : Decidable (TableValid l) := by
  unfold TableValid; infer_instance

/-- The first day number `≥ z` whose weekday is `wd` (for `0 ≤ wd ≤ 6`):
advance by the difference of the weekdays, modulo 7. -/
def firstAlignedFrom (z wd : Int) : Int := z + (wd - (z + 4)) % 7

/-! Auxiliary machinery for verifying the civil-calendar conversion. -/

/-- Balanced boolean conjunction of `f` over `[lo, lo + 2^d)` (kept balanced so
that kernel reduction only needs logarithmic stack depth). -/
def chkPow (f : Nat → Bool) : Nat → Nat → Bool
  | 0, lo => f lo
  | d + 1, lo => chkPow f d lo && chkPow f d (lo + 2 ^ d)

/-- Day-of-era of the first day of year-of-era `t` (shifted years, era =
400-year cycle): `365 t` plus the leap days before year `t`. -/
def eraS (t : Nat) : Nat := 365 * t + t / 4 - t / 100 + t / 400

/-- The year-of-era formula of `fromDayNum`, at the `Nat` level. -/
def yoeF (doe : Nat) : Nat := (doe - doe / 1460 + doe / 36524 - doe / 146096) / 365

/-- Boundary check: `yoeF` is correct at the first and last day of each
year-of-era. -/
def yoeBoundaryOk (t : Nat) : Bool :=
  decide (400 ≤ t) ||
    (decide (yoeF (eraS t) = t) && decide (yoeF (eraS (t + 1) - 1) = t))

/-! Correctness of the civil-calendar conversion (the model of JavaScript `Date`). -/

lemma chkPow_spec (f : Nat → Bool) :
    ∀ (d lo : Nat), chkPow f d lo = true → ∀ i, i < 2 ^ d → f (lo + i) = true := by
  intro d
  induction d with
  | zero =>
    intro lo h i hi
    have h1 : i = 0 := by simpa using Nat.lt_one_iff.mp (by simpa using hi)
    subst h1
    simpa [chkPow] using h
  | succ d ih =>
    intro lo h i hi
    rw [chkPow, Bool.and_eq_true] at h
    have hpow : 2 ^ (d + 1) = 2 ^ d + 2 ^ d := by rw [Nat.pow_succ]; omega
    by_cases hc : i < 2 ^ d
    · exact ih lo h.1 i hc
    · have h2 : i - 2 ^ d < 2 ^ d := by omega
      have h3 := ih (lo + 2 ^ d) h.2 (i - 2 ^ d) h2
      have h4 : lo + 2 ^ d + (i - 2 ^ d) = lo + i := by omega
      rwa [h4] at h3

lemma yoeBoundary : ∀ t : Nat, t ≤ 399 → yoeF (eraS t) = t ∧ yoeF (eraS (t + 1) - 1) = t := by
  have hall : chkPow yoeBoundaryOk 9 0 = true := by rfl
  intro t ht
  have h512 : (2 : Nat) ^ 9 = 512 := by norm_num
  have h := chkPow_spec yoeBoundaryOk 9 0 hall t (by omega)
  rw [Nat.zero_add] at h
  simp only [yoeBoundaryOk, Bool.or_eq_true, Bool.and_eq_true, decide_eq_true_eq] at h
  rcases h with h400 | hok
  · omega
  · exact hok

lemma eraS_succ (t : Nat) : eraS t ≤ eraS (t + 1) := by
  unfold eraS; omega

lemma eraS_mono {a b : Nat} (h : a ≤ b) : eraS a ≤ eraS b := by
  obtain ⟨k, rfl⟩ := Nat.exists_eq_add_of_le h
  clear h
  induction k with
  | zero => simp
  | succ k ih =>
    have h1 := eraS_succ (a + k)
    have h2 : a + (k + 1) = (a + k) + 1 := by omega
    rw [h2]
    omega

lemma yoeF_mono {a b : Nat} (hab : a ≤ b) (hb : b ≤ 146096) : yoeF a ≤ yoeF b := by
  unfold yoeF
  have h : a - a / 1460 + a / 36524 - a / 146096 ≤ b - b / 1460 + b / 36524 - b / 146096 := by
    omega
  exact Nat.div_le_div_right h

lemma eraS_400 : eraS 400 = 146097 := by norm_num [eraS]

lemma yoe_core (n : Nat) (h : n ≤ 146096) :
    yoeF n ≤ 399 ∧ eraS (yoeF n) ≤ n ∧ n < eraS (yoeF n + 1) := by
  have h399 : yoeF n ≤ 399 := by
    have h1 : yoeF n ≤ yoeF 146096 := yoeF_mono h (le_refl _)
    have h2 : yoeF 146096 = 399 := by
      have h3 := (yoeBoundary 399 (by norm_num)).2
      norm_num [eraS] at h3
      exact h3
    omega
  refine ⟨h399, ?_, ?_⟩
  · by_contra hlt
    push_neg at hlt
    have ht1 : 1 ≤ yoeF n := by
      rcases Nat.eq_zero_or_pos (yoeF n) with h0 | h1
      · rw [h0] at hlt; simp [eraS] at hlt
      · exact h1
    have hle : eraS (yoeF n) ≤ eraS 400 := eraS_mono (by omega)
    have hmono : yoeF n ≤ yoeF (eraS (yoeF n) - 1) :=
      yoeF_mono (by omega) (by rw [eraS_400] at hle; omega)
    have hbt := (yoeBoundary (yoeF n - 1) (by omega)).2
    rw [show yoeF n - 1 + 1 = yoeF n by omega] at hbt
    omega
  · by_contra hge
    push_neg at hge
    by_cases hcase : yoeF n + 1 ≤ 399
    · have hbt := (yoeBoundary (yoeF n + 1) hcase).1
      have hmono := yoeF_mono hge h
      omega
    · have h399' : yoeF n = 399 := by omega
      rw [h399', eraS_400] at hge
      omega


lemma isLeapYear_iff (y : Int) :
    isLeapYear y = true ↔ ((y % 4 = 0 ∧ ¬ y % 100 = 0) ∨ y % 400 = 0) := by
  simp [isLeapYear, Bool.or_eq_true, Bool.and_eq_true, beq_iff_eq, bne_iff_ne]


lemma monthShape (doy mp d m : Int) (h0 : 0 ≤ doy) (h365 : doy ≤ 365)
    (hmp : mp = (5 * doy + 2) / 153)
    (hd : d = doy - (153 * mp + 2) / 5 + 1)
    (hm : m = if mp < 10 then mp + 3 else mp - 9) :
    (0 ≤ mp ∧ mp ≤ 11) ∧ (1 ≤ m ∧ m ≤ 12) ∧ 1 ≤ d ∧ d ≤ 31 ∧
    ((m = 4 ∨ m = 6 ∨ m = 9 ∨ m = 11) → d ≤ 30) ∧
    (m = 2 → (mp = 11 ∧ d = doy - 336)) ∧
    ((m ≤ 2) ↔ 10 ≤ mp) ∧
    ((m ≤ 2 → m + 9 = mp) ∧ (¬ m ≤ 2 → m - 3 = mp)) := by
  have hbr : 153 * mp ≤ 5 * doy + 2 ∧ 5 * doy + 2 ≤ 153 * mp + 152 := by omega
  have hmp0 : 0 ≤ mp := by omega
  have hmp11 : mp ≤ 11 := by omega
  clear hmp
  interval_cases mp <;> norm_num at hm <;> subst hm <;> norm_num at hd ⊢ <;> omega

lemma yearShapeNat (n t : Nat) (hn : n ≤ 146096) (h399 : t ≤ 399)
    (hlo : eraS t ≤ n) (hhi : n < eraS (t + 1)) :
    365 * t + t / 4 - t / 100 ≤ n ∧
    n ≤ 365 * t + t / 4 - t / 100 + 365 ∧
    (n = 365 * t + t / 4 - t / 100 + 365 →
      (((t + 1) % 4 = 0 ∧ ¬ (t + 1) % 100 = 0) ∨ (t + 1) % 400 = 0)) := by
  have eS1 : eraS t = 365 * t + t / 4 - t / 100 + t / 400 := rfl
  have eS2 : eraS (t + 1)
      = 365 * (t + 1) + (t + 1) / 4 - (t + 1) / 100 + (t + 1) / 400 := rfl
  rw [eS1] at hlo
  rw [eS2] at hhi
  clear eS1 eS2
  have ht400 : t / 400 = 0 := Nat.div_eq_of_lt (by omega)
  have hlo2 : 365 * t + t / 4 + t / 400 ≤ n + t / 100 := by omega
  have hhi2 : n + (t + 1) / 100 < 365 * (t + 1) + (t + 1) / 4 + (t + 1) / 400 := by omega
  clear hlo hhi
  refine ⟨by omega, ?_, ?_⟩
  · by_cases hc : t = 399
    · subst hc; omega
    · have hq : (t + 1) / 400 = 0 := Nat.div_eq_of_lt (by omega)
      omega
  · intro heq
    have heq2 : n + t / 100 = 365 * t + t / 4 + 365 := by omega
    clear heq
    by_cases h400 : (t + 1) % 400 = 0
    · exact Or.inr h400
    · refine Or.inl ?_
      have hc : ¬ t = 399 := by omega
      have hq : (t + 1) / 400 = 0 := Nat.div_eq_of_lt (by omega)
      have hkey : t / 100 + (t + 1) / 4 ≥ t / 4 + (t + 1) / 100 + 1 := by omega
      constructor
      · by_contra h4x
        have h14 : (t + 1) / 4 = t / 4 := by omega
        have h1100 : t / 100 ≤ (t + 1) / 100 := Nat.div_le_div_right (by omega)
        omega
      · intro h100
        have h2100 : (t + 1) / 100 = t / 100 + 1 := by omega
        have h24 : (t + 1) / 4 ≤ t / 4 + 1 := by omega
        omega

lemma yearShape (doe yoe : Int) (h0 : 0 ≤ doe) (h1 : doe ≤ 146096)
    (hyoe : yoe = (doe - doe / 1460 + doe / 36524 - doe / 146096) / 365) :
    0 ≤ yoe ∧ yoe ≤ 399 ∧
    0 ≤ doe - (365 * yoe + yoe / 4 - yoe / 100) ∧
    doe - (365 * yoe + yoe / 4 - yoe / 100) ≤ 365 ∧
    (doe - (365 * yoe + yoe / 4 - yoe / 100) = 365 →
      (((yoe + 1) % 4 = 0 ∧ ¬ (yoe + 1) % 100 = 0) ∨ (yoe + 1) % 400 = 0)) := by
  obtain ⟨n, hn⟩ : ∃ n : Nat, doe = (n : Int) := ⟨doe.toNat, by omega⟩
  have hcore := yoe_core n (by omega)
  have hyoeN : yoe = ((yoeF n : Nat) : Int) := by
    have eY : yoeF n = (n - n / 1460 + n / 36524 - n / 146096) / 365 := rfl
    omega
  clear hyoe
  subst hyoeN
  generalize hg : yoeF n = t at hcore ⊢
  obtain ⟨h399, hlo, hhi⟩ := hcore
  have hN := yearShapeNat n t (by omega) h399 hlo hhi
  clear hlo hhi hg
  obtain ⟨hN1, hN2, hN3⟩ := hN
  refine ⟨by positivity, by exact_mod_cast h399, by omega, by omega, ?_⟩
  intro h365
  have h5 := hN3 (by omega)
  omega


lemma monthStartNum_le2 (y m : Int) (h2 : m ≤ 2) :
    monthStartNum y m
      = 365 * (y - 1) + (y - 1) / 4 - (y - 1) / 100 + (y - 1) / 400
          + (153 * (m + 9) + 2) / 5 - 719468 := by
  unfold monthStartNum
  rw [if_pos h2]

lemma monthStartNum_gt2 (y m : Int) (h2 : ¬ m ≤ 2) :
    monthStartNum y m
      = 365 * y + y / 4 - y / 100 + y / 400 + (153 * (m - 3) + 2) / 5 - 719468 := by
  unfold monthStartNum
  rw [if_neg h2]

lemma toDayNum_eq (sd : StructuredDate) (h1 : 1 ≤ sd.month) (h2 : sd.month ≤ 12) :
    toDayNum sd = monthStartNum sd.year sd.month + (sd.day - 1) := by
  unfold toDayNum
  have e1 : (sd.month - 1) / 12 = 0 := by omega
  have e2 : (sd.month - 1) % 12 = sd.month - 1 := by omega
  rw [e1, e2, show sd.year + 0 = sd.year by ring, show sd.month - 1 + 1 = sd.month by ring]

lemma civilParts_ok (era doe yoe y doy mp d m : Int)
    (h0 : 0 ≤ doe) (h1 : doe ≤ 146096)
    (hyoe : yoe = (doe - doe / 1460 + doe / 36524 - doe / 146096) / 365)
    (hy : y = yoe + era * 400)
    (hdoy : doy = doe - (365 * yoe + yoe / 4 - yoe / 100))
    (hmp : mp = (5 * doy + 2) / 153)
    (hd : d = doy - (153 * mp + 2) / 5 + 1)
    (hm : m = if mp < 10 then mp + 3 else mp - 9) :
    isValidDate ⟨if m ≤ 2 then y + 1 else y, m, d⟩ ∧
    toDayNum ⟨if m ≤ 2 then y + 1 else y, m, d⟩ = era * 146097 + doe - 719468 := by
  obtain ⟨hy0, hy399, hdoy0, hdoy365, hleap⟩ := yearShape doe yoe h0 h1 hyoe
  rw [← hdoy] at hdoy0 hdoy365 hleap
  obtain ⟨hmpB, hmB, hd1, hd31, hd30, hfeb, hm2iff, hmmp⟩ :=
    monthShape doy mp d m hdoy0 hdoy365 hmp hd hm
  clear hyoe hmp hm
  have hy4 : y / 4 = yoe / 4 + 100 * era := by
    rw [hy, show era * 400 = (100 * era) * 4 by ring,
      Int.add_mul_ediv_right _ _ (by norm_num : (4:Int) ≠ 0)]
  have hy100 : y / 100 = yoe / 100 + 4 * era := by
    rw [hy, show era * 400 = (4 * era) * 100 by ring,
      Int.add_mul_ediv_right _ _ (by norm_num : (100:Int) ≠ 0)]
  have hy400 : y / 400 = era := by
    rw [hy, Int.add_mul_ediv_right _ _ (by norm_num : (400:Int) ≠ 0),
      Int.ediv_eq_zero_of_lt hy0 (by omega)]
    ring
  constructor
  · refine ⟨hmB.1, hmB.2, hd1, ?_⟩
    show d ≤ daysInMonth (if m ≤ 2 then y + 1 else y) m
    by_cases hfebm : m = 2
    · obtain ⟨hmp11, hdfeb⟩ := hfeb hfebm
      rw [if_pos (by omega : m ≤ 2), hfebm]
      have hdm : daysInMonth (y + 1) 2 = if isLeapYear (y + 1) then 29 else 28 := by
        simp [daysInMonth]
      rw [hdm]
      split_ifs with hL
      · omega
      · rw [isLeapYear_iff] at hL
        have hy14 : (y + 1) % 4 = (yoe + 1) % 4 := by omega
        have hy1100 : (y + 1) % 100 = (yoe + 1) % 100 := by omega
        have hy1400 : (y + 1) % 400 = (yoe + 1) % 400 := by omega
        rw [hy14, hy1100, hy1400] at hL
        omega
    · have hdm : daysInMonth (if m ≤ 2 then y + 1 else y) m
          = if m = 4 ∨ m = 6 ∨ m = 9 ∨ m = 11 then 30 else 31 := by
        simp [daysInMonth, hfebm]
      rw [hdm]
      split_ifs with h30
      · exact hd30 h30
      · exact hd31
  · rw [toDayNum_eq _ hmB.1 hmB.2]
    show monthStartNum (if m ≤ 2 then y + 1 else y) m + (d - 1) = _
    rcases hmmp with ⟨hle2, hgt2⟩
    by_cases hc2 : m ≤ 2
    · rw [if_pos hc2, monthStartNum_le2 _ _ hc2]
      rw [show y + 1 - 1 = y by ring, hle2 hc2]
      omega
    · rw [if_neg hc2, monthStartNum_gt2 _ _ hc2]
      rw [hgt2 hc2]
      omega

theorem fromDayNum_ok (z : Int) :
    isValidDate (fromDayNum z) ∧ toDayNum (fromDayNum z) = z := by
  have h := civilParts_ok ((z + 719468) / 146097) ((z + 719468) % 146097) _ _ _ _ _ _
      (Int.emod_nonneg _ (by norm_num)) (by omega) rfl rfl rfl rfl rfl rfl
  refine ⟨h.1, ?_⟩
  have h3 : (z + 719468) / 146097 * 146097 + (z + 719468) % 146097 - 719468 = z := by
    omega
  exact h.2.trans h3


lemma dim_feb (y : Int) :
    daysInMonth y 2 = 28 + (if (y % 4 = 0 ∧ ¬ y % 100 = 0) ∨ y % 400 = 0 then 1 else 0) := by
  unfold daysInMonth
  rw [if_pos rfl]
  by_cases hL : isLeapYear y = true
  · rw [if_pos hL, if_pos ((isLeapYear_iff y).mp hL)]
    norm_num
  · rw [if_neg hL, if_neg (fun hc => hL ((isLeapYear_iff y).mpr hc))]
    norm_num

lemma dim_eq (y m : Int) :
    daysInMonth y m =
      if m = 2 then 28 + (if (y % 4 = 0 ∧ ¬ y % 100 = 0) ∨ y % 400 = 0 then 1 else 0)
      else if m = 4 ∨ m = 6 ∨ m = 9 ∨ m = 11 then 30 else 31 := by
  by_cases h2 : m = 2
  · rw [if_pos h2, h2, dim_feb]
  · unfold daysInMonth
    rw [if_neg h2, if_neg h2]

lemma dim_bounds (y m : Int) : 28 ≤ daysInMonth y m ∧ daysInMonth y m ≤ 31 := by
  rw [dim_eq]
  split_ifs <;> omega

set_option maxHeartbeats 1000000 in
lemma MS_add_dim_le (y ma mb : Int) (h1 : 1 ≤ ma) (hlt : ma < mb) (h2 : mb ≤ 12) :
    monthStartNum y ma + daysInMonth y ma ≤ monthStartNum y mb := by
  rw [dim_eq]
  have hm11 : ma ≤ 11 := by omega
  interval_cases ma <;> (simp only [monthStartNum]; norm_num) <;>
    split_ifs <;> omega

set_option maxHeartbeats 1000000 in
lemma MS_add_dim_le_jan (y m : Int) (h1 : 1 ≤ m) (h2 : m ≤ 12) :
    monthStartNum y m + daysInMonth y m ≤ monthStartNum (y + 1) 1 := by
  rw [dim_eq]
  interval_cases m <;> (simp only [monthStartNum]; norm_num) <;>
    first
    | (split_ifs <;> omega)
    | omega

lemma MS_jan_step (y : Int) : monthStartNum y 1 + 364 ≤ monthStartNum (y + 1) 1 := by
  simp only [monthStartNum]
  split_ifs <;> omega

lemma MS_jan_mono (y1 y2 : Int) (h : y1 ≤ y2) : monthStartNum y1 1 ≤ monthStartNum y2 1 := by
  obtain ⟨k, hk⟩ : ∃ k : Nat, y2 = y1 + (k : Int) := ⟨(y2 - y1).toNat, by omega⟩
  subst hk
  clear h
  induction k with
  | zero => simp
  | succ k ih =>
    have h1 := MS_jan_step (y1 + (k : Int))
    have h2 : y1 + ((k : Nat) + 1 : Nat) = (y1 + (k : Int)) + 1 := by push_cast; ring
    rw [h2]
    omega

lemma MS_jan_le (y m : Int) (h1 : 1 ≤ m) (h2 : m ≤ 12) :
    monthStartNum y 1 ≤ monthStartNum y m := by
  rcases eq_or_lt_of_le h1 with h | h
  · rw [← h]
  · have ha := MS_add_dim_le y 1 m (by omega) h h2
    have hb := (dim_bounds y 1).1
    omega

lemma toDayNum_lt_of_val_lt (a b : StructuredDate) (ha : isValidDate a) (hb : isValidDate b)
    (h : valueOfStructured a < valueOfStructured b) : toDayNum a < toDayNum b := by
  obtain ⟨ha1, ha2, ha3, ha4⟩ := ha
  obtain ⟨hb1, hb2, hb3, hb4⟩ := hb
  have hda31 : a.day ≤ 31 := le_trans ha4 (dim_bounds _ _).2
  have hdb31 : b.day ≤ 31 := le_trans hb4 (dim_bounds _ _).2
  rw [toDayNum_eq a ha1 ha2, toDayNum_eq b hb1 hb2]
  unfold valueOfStructured at h
  have hlex : a.year < b.year ∨
      (a.year = b.year ∧ (a.month < b.month ∨ (a.month = b.month ∧ a.day < b.day))) := by
    omega
  rcases hlex with hy | ⟨hy, hm | ⟨hm, hd⟩⟩
  · have s1 : monthStartNum a.year a.month + a.day ≤ monthStartNum (a.year + 1) 1 := by
      have := MS_add_dim_le_jan a.year a.month ha1 ha2
      omega
    have s2 : monthStartNum (a.year + 1) 1 ≤ monthStartNum b.year 1 :=
      MS_jan_mono _ _ (by omega)
    have s3 : monthStartNum b.year 1 ≤ monthStartNum b.year b.month :=
      MS_jan_le _ _ hb1 hb2
    omega
  · rw [hy]
    have s1 := MS_add_dim_le b.year a.month b.month ha1 hm hb2
    rw [hy] at ha4
    omega
  · rw [hy, hm]
    omega

/-! Characterisation of the period lookup. -/

lemma getMatchingPeriod_cons {α : Type} (p : PeriodOf α) (rest : List (PeriodOf α))
    (sd : StructuredDate) :
    getMatchingPeriod (p :: rest) sd =
      if Covers p sd then some p else getMatchingPeriod rest sd := by
  by_cases hc : Covers p sd
  · rw [if_pos hc]
    obtain ⟨h1, h2⟩ := hc
    cases hpt : p.toDate with
    | none => simp [getMatchingPeriod, h1, hpt]
    | some t =>
      have hle : valueOfStructured sd ≤ valueOfStructured t := by
        rcases h2 with h | ⟨t', ht', hle⟩
        · rw [hpt] at h; cases h
        · rw [hpt] at ht'; injection ht' with e; subst e; exact hle
      simp [getMatchingPeriod, h1, hpt, hle]
  · rw [if_neg hc]
    by_cases h1 : valueOfStructured p.fromDate ≤ valueOfStructured sd
    · cases hpt : p.toDate with
      | none => exact absurd ⟨h1, Or.inl hpt⟩ hc
      | some t =>
        have hnle : ¬ valueOfStructured sd ≤ valueOfStructured t := fun hle =>
          hc ⟨h1, Or.inr ⟨t, hpt, hle⟩⟩
        simp [getMatchingPeriod, h1, hpt, hnle]
    · simp [getMatchingPeriod, h1]

lemma getMatchingPeriod_none_iff {α : Type} (l : List (PeriodOf α)) (sd : StructuredDate) :
    getMatchingPeriod l sd = none ↔ ∀ p ∈ l, ¬ Covers p sd := by
  induction l with
  | nil => simp [getMatchingPeriod]
  | cons p rest ih =>
    rw [getMatchingPeriod_cons]
    by_cases hc : Covers p sd
    · simp [hc]
    · simp [hc, ih]

lemma getMatchingPeriod_some_iff {α : Type} (l : List (PeriodOf α)) (sd : StructuredDate)
    (p : PeriodOf α) :
    getMatchingPeriod l sd = some p ↔ ∃ i, IsFirstMatch l sd i p := by
  induction l with
  | nil => simp [getMatchingPeriod, IsFirstMatch]
  | cons q rest ih =>
    rw [getMatchingPeriod_cons]
    by_cases hc : Covers q sd
    · rw [if_pos hc]
      constructor
      · intro h
        injection h with h
        subst h
        exact ⟨0, by simp [IsFirstMatch], hc, by simp⟩
      · rintro ⟨i, hget, hcov, hfirst⟩
        rcases i with _ | i
        · simp only [List.getElem?_cons_zero] at hget
          injection hget with e
          rw [e]
        · exact absurd hc (hfirst q (by simp [List.take_succ_cons]))
    · rw [if_neg hc, ih]
      constructor
      · rintro ⟨i, hget, hcov, hfirst⟩
        refine ⟨i + 1, by simpa using hget, hcov, ?_⟩
        intro r hr
        rw [List.take_succ_cons] at hr
        rcases List.mem_cons.mp hr with rfl | hr
        · exact hc
        · exact hfirst r hr
      · rintro ⟨i, hget, hcov, hfirst⟩
        rcases i with _ | i
        · simp only [List.getElem?_cons_zero] at hget
          injection hget with e
          subst e
          exact absurd hcov hc
        · refine ⟨i, by simpa using hget, hcov, ?_⟩
          intro r hr
          exact hfirst r (by rw [List.take_succ_cons]; exact List.mem_cons_of_mem _ hr)

lemma getMatchingPeriodIdxAux_cons {α : Type} (sd : StructuredDate) (j : Nat)
    (p : PeriodOf α) (rest : List (PeriodOf α)) :
    getMatchingPeriodIdxAux sd j (p :: rest) =
      if Covers p sd then some (j, p) else getMatchingPeriodIdxAux sd (j + 1) rest := by
  by_cases hc : Covers p sd
  · rw [if_pos hc]
    obtain ⟨h1, h2⟩ := hc
    cases hpt : p.toDate with
    | none => simp [getMatchingPeriodIdxAux, h1, hpt]
    | some t =>
      have hle : valueOfStructured sd ≤ valueOfStructured t := by
        rcases h2 with h | ⟨t', ht', hle⟩
        · rw [hpt] at h; cases h
        · rw [hpt] at ht'; injection ht' with e; subst e; exact hle
      simp [getMatchingPeriodIdxAux, h1, hpt, hle]
  · rw [if_neg hc]
    by_cases h1 : valueOfStructured p.fromDate ≤ valueOfStructured sd
    · cases hpt : p.toDate with
      | none => exact absurd ⟨h1, Or.inl hpt⟩ hc
      | some t =>
        have hnle : ¬ valueOfStructured sd ≤ valueOfStructured t := fun hle =>
          hc ⟨h1, Or.inr ⟨t, hpt, hle⟩⟩
        simp [getMatchingPeriodIdxAux, h1, hpt, hnle]
    · simp [getMatchingPeriodIdxAux, h1]

lemma getMatchingPeriodIdxAux_shift {α : Type} (sd : StructuredDate)
    (l : List (PeriodOf α)) :
    ∀ j, getMatchingPeriodIdxAux sd j l
      = (getMatchingPeriodIdxAux sd 0 l).map (fun x => (x.1 + j, x.2)) := by
  induction l with
  | nil => intro j; simp [getMatchingPeriodIdxAux]
  | cons p rest ih =>
    intro j
    rw [getMatchingPeriodIdxAux_cons, getMatchingPeriodIdxAux_cons]
    by_cases hc : Covers p sd
    · simp [hc]
    · rw [if_neg hc, if_neg hc, ih (j + 1), ih 1, Option.map_map]
      cases getMatchingPeriodIdxAux sd 0 rest with
      | none => simp
      | some x => simp; omega

lemma getMatchingPeriodIdx_some_iff {α : Type} (l : List (PeriodOf α)) (sd : StructuredDate)
    (i : Nat) (p : PeriodOf α) :
    getMatchingPeriodIdx l sd = some (i, p) ↔ IsFirstMatch l sd i p := by
  unfold getMatchingPeriodIdx
  induction l generalizing i p with
  | nil => simp [getMatchingPeriodIdxAux, IsFirstMatch]
  | cons q rest ih =>
    rw [getMatchingPeriodIdxAux_cons]
    by_cases hc : Covers q sd
    · rw [if_pos hc]
      constructor
      · intro h
        injection h with h
        rw [Prod.ext_iff] at h
        obtain ⟨h1, h2⟩ := h
        dsimp at h1 h2
        subst h1
        subst h2
        exact ⟨by simp, hc, by simp⟩
      · rintro ⟨hget, hcov, hfirst⟩
        rcases i with _ | i
        · simp only [List.getElem?_cons_zero] at hget
          injection hget with e
          subst e
          rfl
        · exact absurd hc (hfirst q (by simp [List.take_succ_cons]))
    · rw [if_neg hc]
      rw [getMatchingPeriodIdxAux_shift sd rest 1]
      constructor
      · intro h
        cases haux : getMatchingPeriodIdxAux sd 0 rest with
        | none => rw [haux] at h; cases h
        | some x =>
          rw [haux] at h
          simp only [Option.map_some'] at h
          injection h with h
          rw [Prod.ext_iff] at h
          obtain ⟨h1, h2⟩ := h
          dsimp at h1 h2
          have hfm : IsFirstMatch rest sd x.1 x.2 := (ih x.1 x.2).mp (by rw [haux])
          obtain ⟨hget, hcov, hfirst⟩ := hfm
          subst h2
          refine ⟨?_, hcov, ?_⟩
          · rw [← h1]
            simpa using hget
          · intro r hr
            rw [← h1, List.take_succ_cons] at hr
            rcases List.mem_cons.mp hr with rfl | hr
            · exact hc
            · exact hfirst r hr
      · rintro ⟨hget, hcov, hfirst⟩
        rcases i with _ | i
        · simp only [List.getElem?_cons_zero] at hget
          injection hget with e
          subst e
          exact absurd hcov hc
        · have hfm : IsFirstMatch rest sd i p := by
            refine ⟨by simpa using hget, hcov, ?_⟩
            intro r hr
            exact hfirst r (by rw [List.take_succ_cons]; exact List.mem_cons_of_mem _ hr)
          have := (ih i p).mpr hfm
          rw [this]
          simp

lemma getMatchingPeriodIdx_map_snd {α : Type} (l : List (PeriodOf α)) (sd : StructuredDate) :
    (getMatchingPeriodIdx l sd).map Prod.snd = getMatchingPeriod l sd := by
  unfold getMatchingPeriodIdx
  induction l with
  | nil => simp [getMatchingPeriodIdxAux, getMatchingPeriod]
  | cons q rest ih =>
    rw [getMatchingPeriodIdxAux_cons, getMatchingPeriod_cons]
    by_cases hc : Covers q sd
    · simp [hc]
    · rw [if_neg hc, if_neg hc, getMatchingPeriodIdxAux_shift sd rest 1, ← ih]
      cases getMatchingPeriodIdxAux sd 0 rest <;> simp

lemma getMatchingPeriodIdx_none_iff {α : Type} (l : List (PeriodOf α)) (sd : StructuredDate) :
    getMatchingPeriodIdx l sd = none ↔ ∀ p ∈ l, ¬ Covers p sd := by
  rw [← getMatchingPeriod_none_iff, ← getMatchingPeriodIdx_map_snd]
  cases getMatchingPeriodIdx l sd <;> simp

lemma IsFirstMatch.mem {α : Type} {l : List (PeriodOf α)} {sd : StructuredDate}
    {i : Nat} {p : PeriodOf α} (h : IsFirstMatch l sd i p) : p ∈ l := by
  obtain ⟨hget, _, _⟩ := h
  exact List.getElem?_mem hget

lemma IsFirstMatch.covers {α : Type} {l : List (PeriodOf α)} {sd : StructuredDate}
    {i : Nat} {p : PeriodOf α} (h : IsFirstMatch l sd i p) : Covers p sd := h.2.1

/-! Order-transfer corollaries of the calendar lemmas. -/

lemma val_le_iff_toDayNum_le (a b : StructuredDate) (ha : isValidDate a) (hb : isValidDate b) :
    valueOfStructured a ≤ valueOfStructured b ↔ toDayNum a ≤ toDayNum b := by
  constructor
  · intro h
    rcases eq_or_lt_of_le h with he | hlt
    · have hab : a = b := by
        obtain ⟨ha1, ha2, ha3, ha4⟩ := ha
        obtain ⟨hb1, hb2, hb3, hb4⟩ := hb
        have hda31 : a.day ≤ 31 := le_trans ha4 (dim_bounds _ _).2
        have hdb31 : b.day ≤ 31 := le_trans hb4 (dim_bounds _ _).2
        unfold valueOfStructured at he
        obtain ⟨x1, x2, x3⟩ := a
        obtain ⟨y1, y2, y3⟩ := b
        simp only at *
        have : x1 = y1 ∧ x2 = y2 ∧ x3 = y3 := by omega
        simp [this.1, this.2.1, this.2.2]
      rw [hab]
    · exact le_of_lt (toDayNum_lt_of_val_lt a b ha hb hlt)
  · intro h
    by_contra hlt
    push_neg at hlt
    exact absurd h (not_le.mpr (toDayNum_lt_of_val_lt b a hb ha hlt))

lemma addWeek_valid (sd : StructuredDate) : isValidDate (addWeek sd) :=
  (fromDayNum_ok (toDayNum sd + 7)).1

lemma toDayNum_addWeek (sd : StructuredDate) : toDayNum (addWeek sd) = toDayNum sd + 7 :=
  (fromDayNum_ok (toDayNum sd + 7)).2

/-! The week-walker step advances strictly when the table has valid,
non-overlapping periods. -/

lemma weekStep_eq_addWeek_of_eq (template : List WorkPeriod) (d : StructuredDate)
    (h : (getMatchingPeriodIdx template d).map Prod.fst
        = (getMatchingPeriodIdx template (addWeek d)).map Prod.fst) :
    weekStep template d = some (addWeek d) := by
  unfold weekStep
  rw [if_pos h]

lemma weekStep_crash (template : List WorkPeriod) (d : StructuredDate)
    (hcur : getMatchingPeriodIdx template d ≠ none)
    (hnxt : getMatchingPeriodIdx template (addWeek d) = none) :
    weekStep template d = none := by
  unfold weekStep
  rw [hnxt]
  rw [if_neg ?_]
  cases hc : getMatchingPeriodIdx template d with
  | none => exact absurd hc hcur
  | some x => simp [hc]

lemma weekStep_gt (template : List WorkPeriod) (d d' : StructuredDate)
    (hv : TableValid template) (hno : NoOverlap template) (hd : isValidDate d)
    (h : weekStep template d = some d') :
    isValidDate d' ∧ toDayNum d < toDayNum d' := by
  unfold weekStep at h
  split_ifs at h with heq
  · injection h with h
    subst h
    exact ⟨addWeek_valid d, by rw [toDayNum_addWeek]; omega⟩
  · cases hnxt : getMatchingPeriodIdx template (addWeek d) with
    | none => rw [hnxt] at h; cases h
    | some x =>
      obtain ⟨j, q⟩ := x
      rw [hnxt] at h
      injection h with h
      subst h
      have hfm : IsFirstMatch template (addWeek d) j q :=
        (getMatchingPeriodIdx_some_iff _ _ _ _).mp hnxt
      have hqmem : q ∈ template := hfm.mem
      have hqvalid : isValidDate q.fromDate := (hv q hqmem).1
      refine ⟨hqvalid, ?_⟩
      -- show val d < val q.fromDate, then transfer
      by_contra hle
      push_neg at hle
      have hvle : valueOfStructured q.fromDate ≤ valueOfStructured d :=
        (val_le_iff_toDayNum_le _ _ hqvalid hd).mpr hle
      -- q then covers d as well
      have hd_le_nw : valueOfStructured d ≤ valueOfStructured (addWeek d) :=
        (val_le_iff_toDayNum_le _ _ hd (addWeek_valid d)).mpr
          (by rw [toDayNum_addWeek]; omega)
      have hqcov : Covers q d := by
        obtain ⟨hq1, hq2⟩ := hfm.covers
        refine ⟨hvle, ?_⟩
        rcases hq2 with hnone | ⟨t, ht, hlet⟩
        · exact Or.inl hnone
        · exact Or.inr ⟨t, ht, le_trans hd_le_nw hlet⟩
      -- so the lookup at d succeeds, at some index i with a covering p
      cases hcur : getMatchingPeriodIdx template d with
      | none =>
        exact absurd hqcov (((getMatchingPeriodIdx_none_iff _ _).mp hcur) q hqmem)
      | some y =>
        obtain ⟨i, p⟩ := y
        have hfmi : IsFirstMatch template d i p :=
          (getMatchingPeriodIdx_some_iff _ _ _ _).mp hcur
        have hij : i ≠ j := by
          intro he
          rw [hcur, hnxt] at heq
          simp [he] at heq
        -- two distinct entries p (at i) and q (at j) both cover d: contradicts NoOverlap
        obtain ⟨hgi, hcovi, _⟩ := hfmi
        obtain ⟨hgj, _, _⟩ := hfm
        have hilen : i < template.length := (List.getElem?_eq_some.mp hgi).1
        have hjlen : j < template.length := (List.getElem?_eq_some.mp hgj).1
        have hpi : template.get ⟨i, hilen⟩ = p := by
          have := (List.getElem?_eq_some.mp hgi).2
          simpa [List.get_eq_getElem] using this
        have hqj : template.get ⟨j, hjlen⟩ = q := by
          have := (List.getElem?_eq_some.mp hgj).2
          simpa [List.get_eq_getElem] using this
        rcases Nat.lt_or_ge i j with hij2 | hij2
        · have hR := List.pairwise_iff_get.mp hno ⟨i, hilen⟩ ⟨j, hjlen⟩ hij2
          rw [hpi, hqj] at hR
          exact hR d ⟨hcovi, hqcov⟩
        · have hij3 : j < i := by omega
          have hR := List.pairwise_iff_get.mp hno ⟨j, hjlen⟩ ⟨i, hilen⟩ hij3
          rw [hpi, hqj] at hR
          exact hR d ⟨hqcov, hcovi⟩

/-! Invariant of the (fuel-bounded) week walker. -/

lemma datesUntilNowFuel_invariant (template : List WorkPeriod) (now : Int)
    (hv : TableValid template) (hno : NoOverlap template) :
    ∀ (fuel : Nat) (d : StructuredDate), isValidDate d →
      (∀ e ∈ (datesUntilNowFuel template now fuel d).1,
          toDayNum d ≤ toDayNum e ∧ toDayNum e ≤ now) ∧
      (datesUntilNowFuel template now fuel d).1.Chain'
        (fun a b => toDayNum a ≤ toDayNum b) := by
  intro fuel
  induction fuel with
  | zero => intro d _; simp [datesUntilNowFuel]
  | succ fuel ih =>
    intro d hd
    rw [datesUntilNowFuel]
    by_cases hle : toDayNum d ≤ now
    · rw [if_pos hle]
      cases hstep : weekStep template d with
      | none =>
        simp only [hstep]
        refine ⟨?_, by simp⟩
        intro e he
        rcases List.mem_singleton.mp he with rfl
        exact ⟨le_refl _, hle⟩
      | some d' =>
        simp only [hstep]
        obtain ⟨hval', hlt⟩ := weekStep_gt template d d' hv hno hd hstep
        obtain ⟨ihall, ihchain⟩ := ih d' hval'
        refine ⟨?_, ?_⟩
        · intro e he
          rcases List.mem_cons.mp he with rfl | he
          · exact ⟨le_refl _, hle⟩
          · exact ⟨le_trans (le_of_lt hlt) (ihall e he).1, (ihall e he).2⟩
        · refine List.Chain'.cons' ihchain ?_
          intro y hy
          have hymem := List.mem_of_mem_head? hy
          exact le_trans (le_of_lt hlt) (ihall y hymem).1
    · rw [if_neg hle]
      constructor
      · intro e he
        simp at he
      · simp

/-! Month grouping. -/

lemma groupByMonthGo_sum (l : List DateWithHours) : ∀ acc : MonthAggregate,
    ((groupByMonthGo acc l).map MonthAggregate.hoursWorked).sum
      = acc.hoursWorked + (l.map DateWithHours.hoursWorked).sum := by
  induction l with
  | nil => intro acc; simp [groupByMonthGo]
  | cons dh rest ih =>
    intro acc
    rw [groupByMonthGo]
    by_cases hc : dh.date.year = acc.year ∧ dh.date.month = acc.month
    · rw [if_pos hc, ih]
      simp
      ring
    · rw [if_neg hc]
      simp [ih]

lemma groupByMonthGo_dates (l : List DateWithHours) : ∀ acc : MonthAggregate,
    (∀ x ∈ acc.concernedDates, x.year = acc.year ∧ x.month = acc.month) →
    ∀ g ∈ groupByMonthGo acc l, ∀ x ∈ g.concernedDates, x.year = g.year ∧ x.month = g.month := by
  induction l with
  | nil =>
    intro acc hacc g hg
    rw [groupByMonthGo] at hg
    rcases List.mem_singleton.mp hg with rfl
    exact hacc
  | cons dh rest ih =>
    intro acc hacc g hg
    rw [groupByMonthGo] at hg
    by_cases hc : dh.date.year = acc.year ∧ dh.date.month = acc.month
    · rw [if_pos hc] at hg
      refine ih _ ?_ g hg
      intro x hx
      rcases List.mem_append.mp hx with hx | hx
      · exact hacc x hx
      · rcases List.mem_singleton.mp hx with rfl
        exact ⟨hc.1, hc.2⟩
    · rw [if_neg hc] at hg
      rcases List.mem_cons.mp hg with rfl | hg
      · exact hacc
      · refine ih _ ?_ g hg
        intro x hx
        rcases List.mem_singleton.mp hx with rfl
        exact ⟨rfl, rfl⟩

/-! Weekday alignment. -/

lemma getDayNum_bounds (z : Int) : 0 ≤ getDayNum z ∧ getDayNum z < 7 := by
  unfold getDayNum
  omega

lemma firstAlignedFrom_spec (z wd : Int) (h0 : 0 ≤ wd) (h6 : wd ≤ 6) :
    z ≤ firstAlignedFrom z wd ∧ firstAlignedFrom z wd ≤ z + 6 ∧
    getDayNum (firstAlignedFrom z wd) = wd ∧
    (∀ w, z ≤ w → w < firstAlignedFrom z wd → getDayNum w ≠ wd) := by
  unfold firstAlignedFrom getDayNum
  refine ⟨by omega, by omega, by omega, ?_⟩
  intro w h1 h2
  omega

lemma advanceToWeekDayF_correct (wd : Int) (h0 : 0 ≤ wd) (h6 : wd ≤ 6) :
    ∀ (fuel : Nat) (k : Nat) (z : Int), (wd - (z + 4)) % 7 = (k : Int) → k < fuel →
      advanceToWeekDayF fuel z wd = some (z + (k : Int)) := by
  intro fuel
  induction fuel with
  | zero => intro k z _ hk; omega
  | succ fuel ih =>
    intro k z hk hlt
    rw [advanceToWeekDayF]
    by_cases hd : getDayNum z = wd
    · have hk0 : k = 0 := by
        unfold getDayNum at hd
        omega
      rw [if_pos hd, hk0]
      norm_num
    · have hk0 : k ≠ 0 := by
        intro h
        rw [h] at hk
        unfold getDayNum at hd
        omega
      rw [if_neg hd]
      have hrec := ih (k - 1) (z + 1) (by omega) (by omega)
      rw [hrec]
      congr 1
      omega

lemma advanceToWeekDayF_eq (z wd : Int) (h0 : 0 ≤ wd) (h6 : wd ≤ 6) :
    advanceToWeekDayF 7 z wd = some (firstAlignedFrom z wd) := by
  have hbound : 0 ≤ (wd - (z + 4)) % 7 ∧ (wd - (z + 4)) % 7 < 7 := by omega
  have hk := advanceToWeekDayF_correct wd h0 h6 7 ((wd - (z + 4)) % 7).toNat
      z (by omega) (by omega)
  rw [hk]
  unfold firstAlignedFrom
  congr 1
  omega

lemma advanceToWeekDayF_none (wd : Int) (h : ¬ (0 ≤ wd ∧ wd ≤ 6)) :
    ∀ (fuel : Nat) (z : Int), advanceToWeekDayF fuel z wd = none := by
  intro fuel
  induction fuel with
  | zero => intro z; rfl
  | succ fuel ih =>
    intro z
    rw [advanceToWeekDayF]
    have hd : getDayNum z ≠ wd := by
      have := getDayNum_bounds z
      omega
    rw [if_neg hd]
    exact ih (z + 1)

/-! Start-date derivation. -/

lemma alignedDates_eq (t : List WorkPeriod)
    (h : ∀ wp ∈ t, 0 ≤ wp.payload.weekDay ∧ wp.payload.weekDay ≤ 6) :
    alignedDates 7 t = some (t.map
      (fun wp => fromDayNum (firstAlignedFrom (toDayNum wp.fromDate) wp.payload.weekDay))) := by
  induction t with
  | nil => rfl
  | cons wp rest ih =>
    have hwp := h wp (List.mem_cons_self wp rest)
    rw [alignedDates, advanceToWeekDayF_eq _ _ hwp.1 hwp.2,
      ih (fun x hx => h x (List.mem_cons_of_mem _ hx))]
    rfl

lemma foldl_min_spec : ∀ (l : List StructuredDate) (x : StructuredDate),
    (l.foldl (fun mn dt => if valueOfStructured dt < valueOfStructured mn then dt else mn) x = x
      ∨ l.foldl (fun mn dt => if valueOfStructured dt < valueOfStructured mn then dt else mn) x ∈ l) ∧
    valueOfStructured
        (l.foldl (fun mn dt => if valueOfStructured dt < valueOfStructured mn then dt else mn) x)
      ≤ valueOfStructured x ∧
    ∀ a ∈ l,
      valueOfStructured
          (l.foldl (fun mn dt => if valueOfStructured dt < valueOfStructured mn then dt else mn) x)
        ≤ valueOfStructured a := by
  intro l
  induction l with
  | nil => intro x; exact ⟨Or.inl rfl, le_refl _, by intro a ha; cases ha⟩
  | cons b rest ih =>
    intro x
    rw [List.foldl_cons]
    by_cases hc : valueOfStructured b < valueOfStructured x
    · rw [if_pos hc]
      obtain ⟨hmem, hle, hall⟩ := ih b
      refine ⟨?_, ?_, ?_⟩
      · rcases hmem with he | hm
        · exact Or.inr (by rw [he]; exact List.mem_cons_self b rest)
        · exact Or.inr (List.mem_cons_of_mem _ hm)
      · exact le_trans hle (le_of_lt hc)
      · intro a ha
        rcases List.mem_cons.mp ha with rfl | ha
        · exact hle
        · exact hall a ha
    · rw [if_neg hc]
      obtain ⟨hmem, hle, hall⟩ := ih x
      refine ⟨?_, hle, ?_⟩
      · rcases hmem with he | hm
        · exact Or.inl he
        · exact Or.inr (List.mem_cons_of_mem _ hm)
      · intro a ha
        rcases List.mem_cons.mp ha with rfl | ha
        · omega
        · exact hall a ha

/-! Uniqueness of the covering entry in a non-overlapping table. -/

lemma covers_unique_of_noOverlap {α : Type} {l : List (PeriodOf α)} (hno : NoOverlap l)
    {p r : PeriodOf α} {sd : StructuredDate} (hp : p ∈ l) (hr : r ∈ l)
    (hcp : Covers p sd) (hcr : Covers r sd) : p = r := by
  by_contra hne
  have hsymm : Symmetric (fun p q : PeriodOf α => ∀ sd, ¬ (Covers p sd ∧ Covers q sd)) :=
    fun a b hab sd hc => hab sd ⟨hc.2, hc.1⟩
  exact (List.Pairwise.forall hsymm hno) hp hr hne sd ⟨hcp, hcr⟩

lemma getMatchingPeriod_eq_of_unique {α : Type} {l : List (PeriodOf α)} {sd : StructuredDate}
    {p : PeriodOf α} (hmem : p ∈ l) (hcov : Covers p sd)
    (huniq : ∀ r ∈ l, Covers r sd → r = p) : getMatchingPeriod l sd = some p := by
  induction l with
  | nil => cases hmem
  | cons q rest ih =>
    rw [getMatchingPeriod_cons]
    by_cases hc : Covers q sd
    · rw [if_pos hc, huniq q (List.mem_cons_self q rest) hc]
    · rw [if_neg hc]
      rcases List.mem_cons.mp hmem with rfl | hm
      · exact absurd hcov hc
      · exact ih hm (fun r hr hcr => huniq r (List.mem_cons_of_mem _ hr) hcr)

/-! Claim theorems. -/

/-- Claim C1: for every period table and every date, `getMatchingPeriod`
returns a period `p` iff `p` covers the date (`p.from ≤ date` and `p.to`
absent or `date ≤ p.to`), and it then returns the first covering entry in
table order; when no entry covers the date it returns none. -/
theorem claimC1_lookup_first_cover {α : Type} (l : List (PeriodOf α)) (sd : StructuredDate) :
    (∀ p, getMatchingPeriod l sd = some p ↔ ∃ i, IsFirstMatch l sd i p) ∧
    (getMatchingPeriod l sd = none ↔ ∀ p ∈ l, ¬ Covers p sd) :=
  ⟨fun p => getMatchingPeriod_some_iff l sd p, getMatchingPeriod_none_iff l sd⟩

/-- Witness for C1 at a concrete table and date not covered by any entry. -/
theorem claimC1_witness :
    getMatchingPeriod [⟨⟨2024, 1, 1⟩, some ⟨2024, 1, 31⟩, (0 : Int)⟩] ⟨2024, 2, 1⟩ = none :=
  (claimC1_lookup_first_cover _ _).2.mpr (by decide)

/-- Claim C2 counterexample: with overlapping work periods the walker
re-anchors backwards.  Started at 2024-01-12 (which is also the start date the
claim quantifies over) it emits 2024-01-12, then 2024-01-01 — earlier than the
start date and earlier than the previously emitted date — refuting both parts
of the claim. -/
theorem claimC2_counterexample :
    (datesUntilNowFuel
        [⟨⟨2024, 1, 10⟩, some ⟨2024, 1, 15⟩, ⟨1, 40⟩⟩,
         ⟨⟨2024, 1, 1⟩, some ⟨2024, 12, 31⟩, ⟨1, 20⟩⟩]
        (toDayNum ⟨2024, 1, 20⟩) 3 ⟨2024, 1, 12⟩).1
      = [⟨2024, 1, 12⟩, ⟨2024, 1, 1⟩, ⟨2024, 1, 8⟩] ∧
    toDayNum ⟨2024, 1, 1⟩ < toDayNum ⟨2024, 1, 12⟩ := by
  constructor
  · rfl
  · decide

/-- Claim C2 (amended): provided the table's boundary dates are valid civil
dates, no date is covered by two entries, and the start date is valid, every
date emitted by the week walker lies between the start date and now (in
day-number, i.e. chronological, order) and the emitted sequence is
non-decreasing. -/
theorem claimC2_walker_monotone (template : List WorkPeriod) (now : Int)
    (fuel : Nat) (startDate : StructuredDate)
    (hv : TableValid template) (hno : NoOverlap template) (hs : isValidDate startDate) :
    (∀ e ∈ (datesUntilNowFuel template now fuel startDate).1,
        toDayNum startDate ≤ toDayNum e ∧ toDayNum e ≤ now) ∧
    (datesUntilNowFuel template now fuel startDate).1.Chain'
      (fun a b => toDayNum a ≤ toDayNum b) :=
  datesUntilNowFuel_invariant template now hv hno fuel startDate hs

/-- Witness for the amended C2 on a concrete two-period table. -/
theorem claimC2_witness :
    toDayNum ⟨2024, 1, 1⟩ ≤ toDayNum ⟨2024, 1, 8⟩ ∧
    toDayNum ⟨2024, 1, 8⟩ ≤ toDayNum ⟨2024, 2, 20⟩ :=
  (claimC2_walker_monotone
      [⟨⟨2024, 1, 1⟩, some ⟨2024, 1, 31⟩, ⟨1, 40⟩⟩, ⟨⟨2024, 2, 1⟩, none, ⟨1, 20⟩⟩]
      (toDayNum ⟨2024, 2, 20⟩) 10 ⟨2024, 1, 1⟩
      (by decide)
      (by
        refine List.Pairwise.cons ?_ (List.pairwise_singleton _ _)
        intro q hq sd hc
        rcases List.mem_singleton.mp hq with rfl
        obtain ⟨⟨h1, h2⟩, ⟨h3, h4⟩⟩ := hc
        rcases h2 with h2 | ⟨t, ht, hle⟩
        · cases h2
        · injection ht with ht
          subst ht
          unfold valueOfStructured at h1 h3 hle
          simp only at h1 h3 hle
          omega)
      (by decide)).1
    ⟨2024, 1, 8⟩ (by decide)

/-- Claim C3: given that some period covers `d + 7 days` (at table position
`j`), the walker step advances to `d + 7 days` when the period covering `d`
is the same table entry (same position), and otherwise re-anchors to the
`from` date of the period covering `d + 7 days` — also when `d` itself is
covered by no period. -/
theorem claimC3_weekStep_reanchor (template : List WorkPeriod) (d : StructuredDate)
    (j : Nat) (q : WorkPeriod)
    (hnxt : getMatchingPeriodIdx template (addWeek d) = some (j, q)) :
    (∀ i p, getMatchingPeriodIdx template d = some (i, p) →
        ((i = j → weekStep template d = some (addWeek d)) ∧
         (i ≠ j → weekStep template d = some q.fromDate))) ∧
    (getMatchingPeriodIdx template d = none → weekStep template d = some q.fromDate) := by
  unfold weekStep
  rw [hnxt]
  constructor
  · intro i p hcur
    rw [hcur]
    constructor
    · intro hij
      subst hij
      rw [if_pos (by simp)]
    · intro hij
      rw [if_neg (by simp [hij])]
  · intro hcur
    rw [hcur, if_neg (by simp)]

/-- Witness for C3: crossing from the first period into the second re-anchors
to the second period's `from` date. -/
theorem claimC3_witness :
    weekStep
      [⟨⟨2024, 1, 10⟩, some ⟨2024, 1, 15⟩, ⟨1, 40⟩⟩,
       ⟨⟨2024, 1, 1⟩, some ⟨2024, 12, 31⟩, ⟨1, 20⟩⟩]
      ⟨2024, 1, 12⟩ = some ⟨2024, 1, 1⟩ :=
  ((claimC3_weekStep_reanchor _ ⟨2024, 1, 12⟩ 1
      ⟨⟨2024, 1, 1⟩, some ⟨2024, 12, 31⟩, ⟨1, 20⟩⟩ (by decide)).1
    0 ⟨⟨2024, 1, 10⟩, some ⟨2024, 1, 15⟩, ⟨1, 40⟩⟩ (by decide)).2 (by decide)

/-- Claim C4 counterexample: the claim asserts the walker always fails with a
fatal error when no period covers `d + 7 days`.  But when no period covers `d`
either, JavaScript compares `undefined === undefined`, which is true, and the
walker silently advances by a week.  The state is reachable: with the table
below the derived start date is 2024-01-03 (the period's `weekDay` is 3,
aligning past its own `to` bound), it is within the clock bound, no period
covers it or its successor week, and the step succeeds with 2024-01-10
instead of failing. -/
theorem claimC4_counterexample :
    getStartDate 7 [⟨⟨2024, 1, 1⟩, some ⟨2024, 1, 2⟩, ⟨3, 40⟩⟩] = some ⟨2024, 1, 3⟩ ∧
    getMatchingPeriodIdx ([⟨⟨2024, 1, 1⟩, some ⟨2024, 1, 2⟩, ⟨3, 40⟩⟩] : List WorkPeriod)
        (addWeek ⟨2024, 1, 3⟩) = none ∧
    toDayNum ⟨2024, 1, 3⟩ ≤ toDayNum ⟨2024, 12, 31⟩ ∧
    weekStep [⟨⟨2024, 1, 1⟩, some ⟨2024, 1, 2⟩, ⟨3, 40⟩⟩] ⟨2024, 1, 3⟩
      = some ⟨2024, 1, 10⟩ := by
  refine ⟨?_, ?_, ?_, ?_⟩ <;> decide

/-- Claim C4 (amended): when some period covers `d` but none covers
`d + 7 days`, the walker step fails (dereferencing `undefined.from`); when
neither `d` nor `d + 7 days` is covered, it silently advances to
`d + 7 days`. -/
theorem claimC4_weekStep_gap (template : List WorkPeriod) (d : StructuredDate) :
    (getMatchingPeriodIdx template d ≠ none →
      getMatchingPeriodIdx template (addWeek d) = none →
      weekStep template d = none) ∧
    (getMatchingPeriodIdx template d = none →
      getMatchingPeriodIdx template (addWeek d) = none →
      weekStep template d = some (addWeek d)) := by
  constructor
  · exact fun h1 h2 => weekStep_crash template d h1 h2
  · intro h1 h2
    unfold weekStep
    rw [h1, h2, if_pos rfl]

/-- Witness for the amended C4: a date inside a short period whose next week
falls beyond it makes the step fail. -/
theorem claimC4_witness :
    weekStep [⟨⟨2024, 1, 1⟩, some ⟨2024, 1, 5⟩, ⟨1, 40⟩⟩] ⟨2024, 1, 3⟩ = none :=
  (claimC4_weekStep_gap _ _).1 (by decide) (by decide)

/-- Claim C5: the hours annotator fails (throws) iff no work period covers the
date; otherwise it returns the date unchanged, paired with the `hoursPerWeek`
of the first covering work period. -/
theorem claimC5_mentionHours (template : List WorkPeriod) (sd : StructuredDate) :
    (mentionHours template sd = none ↔ ∀ p ∈ template, ¬ Covers p sd) ∧
    (∀ i p, IsFirstMatch template sd i p →
      mentionHours template sd = some ⟨sd, p.payload.hoursPerWeek⟩) := by
  constructor
  · unfold mentionHours
    cases h : getMatchingPeriod template sd with
    | none =>
      simpa using (getMatchingPeriod_none_iff template sd).mp h
    | some p =>
      constructor
      · intro hc
        cases hc
      · intro hall
        obtain ⟨i, hfm⟩ := (getMatchingPeriod_some_iff template sd p).mp h
        exact absurd hfm.covers (hall p hfm.mem)
  · intro i p hfm
    unfold mentionHours
    rw [(getMatchingPeriod_some_iff template sd p).mpr ⟨i, hfm⟩]

/-- Witness for C5 at a covered date. -/
theorem claimC5_witness :
    mentionHours [⟨⟨2024, 1, 1⟩, some ⟨2024, 1, 31⟩, ⟨1, 40⟩⟩] ⟨2024, 1, 8⟩
      = some ⟨⟨2024, 1, 8⟩, 40⟩ :=
  (claimC5_mentionHours _ _).2 0 ⟨⟨2024, 1, 1⟩, some ⟨2024, 1, 31⟩, ⟨1, 40⟩⟩ (by decide)

/-- Claim C6: for chronologically sorted input, the total of `hoursWorked`
over the emitted month aggregates equals the total over the input, every
aggregate's `concernedDates` lie in that aggregate's (year, month), and the
empty input yields the empty output. -/
theorem claimC6_groupByMonth (l : List DateWithHours)
    (hsorted : l.Chain' (fun a b => toDayNum a.date ≤ toDayNum b.date)) :
    ((groupByMonth l).map MonthAggregate.hoursWorked).sum
        = (l.map DateWithHours.hoursWorked).sum ∧
    (∀ g ∈ groupByMonth l, ∀ x ∈ g.concernedDates, x.year = g.year ∧ x.month = g.month) ∧
    groupByMonth ([] : List DateWithHours) = [] := by
  refine ⟨?_, ?_, rfl⟩
  · cases l with
    | nil => rfl
    | cons dh rest =>
      rw [groupByMonth, groupByMonthGo_sum]
      simp
  · cases l with
    | nil => intro g hg; simp [groupByMonth] at hg
    | cons dh rest =>
      rw [groupByMonth]
      refine groupByMonthGo_dates _ _ ?_
      intro x hx
      simp at hx

/-- Witness for C6 on a concrete sorted two-month input. -/
theorem claimC6_witness :
    ((groupByMonth [⟨⟨2024, 1, 1⟩, 40⟩, ⟨⟨2024, 1, 8⟩, 40⟩, ⟨⟨2024, 2, 5⟩, 20⟩]).map
        MonthAggregate.hoursWorked).sum
      = ([⟨⟨2024, 1, 1⟩, 40⟩, ⟨⟨2024, 1, 8⟩, 40⟩,
          (⟨⟨2024, 2, 5⟩, 20⟩ : DateWithHours)].map DateWithHours.hoursWorked).sum :=
  (claimC6_groupByMonth _
    (by
      rw [List.chain'_cons, List.chain'_cons]
      refine ⟨by decide, by decide, List.chain'_singleton _⟩)).1

/-- Claim C7: the salary annotator probes day 1 of the aggregate's month; it
fails iff no salary period covers that probe date, and otherwise returns the
year, month and hours unchanged together with
`hoursWorked * salaryPerHour` of the first covering salary period. -/
theorem claimC7_mentionSalary (salary : List SalaryPeriod) (g : MonthAggregate) :
    (mentionSalary salary g = none ↔
      ∀ p ∈ salary, ¬ Covers p ⟨g.year, g.month, 1⟩) ∧
    (∀ i p, IsFirstMatch salary ⟨g.year, g.month, 1⟩ i p →
      mentionSalary salary g
        = some ⟨g.year, g.month, g.hoursWorked, g.hoursWorked * p.payload.salaryPerHour⟩) := by
  constructor
  · unfold mentionSalary
    cases h : getMatchingPeriod salary ({ year := g.year, month := g.month, day := 1 }
        : StructuredDate) with
    | none =>
      simpa using (getMatchingPeriod_none_iff salary _).mp h
    | some p =>
      constructor
      · intro hc
        cases hc
      · intro hall
        obtain ⟨i, hfm⟩ := (getMatchingPeriod_some_iff salary _ p).mp h
        exact absurd hfm.covers (hall p hfm.mem)
  · intro i p hfm
    unfold mentionSalary
    rw [(getMatchingPeriod_some_iff salary _ p).mpr ⟨i, hfm⟩]

/-- Witness for C7: a month is priced by the rate covering its first day. -/
theorem claimC7_witness :
    mentionSalary [⟨⟨2024, 1, 1⟩, none, ⟨25⟩⟩] ⟨2024, 1, 160, []⟩
      = some ⟨2024, 1, 160, 4000⟩ :=
  (claimC7_mentionSalary _ _).2 0 ⟨⟨2024, 1, 1⟩, none, ⟨25⟩⟩ (by decide)

/-- Claim C8: permuting a table whose periods cover no date twice does not
change any lookup result. -/
theorem claimC8_lookup_perm {α : Type} (l l' : List (PeriodOf α)) (hp : l.Perm l')
    (hno : NoOverlap l) (sd : StructuredDate) :
    getMatchingPeriod l sd = getMatchingPeriod l' sd := by
  cases h : getMatchingPeriod l sd with
  | some p =>
    obtain ⟨i, hfm⟩ := (getMatchingPeriod_some_iff l sd p).mp h
    have hmem' : p ∈ l' := hp.mem_iff.mp hfm.mem
    have huniq : ∀ r ∈ l', Covers r sd → r = p := fun r hr hcr =>
      covers_unique_of_noOverlap hno (hp.mem_iff.mpr hr) hfm.mem hcr hfm.covers
    exact (getMatchingPeriod_eq_of_unique hmem' hfm.covers huniq).symm
  | none =>
    have hall := (getMatchingPeriod_none_iff l sd).mp h
    symm
    rw [getMatchingPeriod_none_iff]
    intro p hp'
    exact hall p (hp.mem_iff.mpr hp')

/-- Witness for C8 on a concrete non-overlapping table and its reversal. -/
theorem claimC8_witness :
    getMatchingPeriod
        [⟨⟨2024, 1, 1⟩, some ⟨2024, 1, 31⟩, (1 : Int)⟩, ⟨⟨2024, 2, 1⟩, none, 2⟩]
        ⟨2024, 2, 10⟩
      = getMatchingPeriod
        [⟨⟨2024, 2, 1⟩, none, 2⟩, ⟨⟨2024, 1, 1⟩, some ⟨2024, 1, 31⟩, (1 : Int)⟩]
        ⟨2024, 2, 10⟩ :=
  claimC8_lookup_perm _ _ (by decide)
    (by
      refine List.Pairwise.cons ?_ (List.pairwise_singleton _ _)
      intro q hq sd hc
      rcases List.mem_singleton.mp hq with rfl
      obtain ⟨⟨h1, h2⟩, ⟨h3, h4⟩⟩ := hc
      rcases h2 with h2 | ⟨t, ht, hle⟩
      · cases h2
      · injection ht with ht
        subst ht
        unfold valueOfStructured at h1 h3 hle
        simp only at h1 h3 hle
        omega)
    ⟨2024, 2, 10⟩

/-- Claim C9: for a non-empty work table (with weekdays in range, per the data
model), the derived start date is the chronologically earliest of the per-entry
aligned dates, where each entry's aligned date is the first day `≥ from` whose
weekday equals the entry's declared `weekDay`. -/
theorem claimC9_getStartDate (t : List WorkPeriod) (hne : t ≠ [])
    (hwd : ∀ wp ∈ t, 0 ≤ wp.payload.weekDay ∧ wp.payload.weekDay ≤ 6) :
    ∃ m, getStartDate 7 t = some m ∧
      m ∈ t.map (fun wp => fromDayNum (firstAlignedFrom (toDayNum wp.fromDate)
          wp.payload.weekDay)) ∧
      (∀ wp ∈ t, toDayNum m ≤ firstAlignedFrom (toDayNum wp.fromDate) wp.payload.weekDay) ∧
      (∀ wp ∈ t,
        toDayNum wp.fromDate
            ≤ firstAlignedFrom (toDayNum wp.fromDate) wp.payload.weekDay ∧
        getDayNum (firstAlignedFrom (toDayNum wp.fromDate) wp.payload.weekDay)
            = wp.payload.weekDay ∧
        ∀ w, toDayNum wp.fromDate ≤ w →
          w < firstAlignedFrom (toDayNum wp.fromDate) wp.payload.weekDay →
          getDayNum w ≠ wp.payload.weekDay) := by
  have halign := alignedDates_eq t hwd
  cases ht : t with
  | nil => exact absurd ht hne
  | cons wp rest =>
    subst ht
    rw [List.map_cons] at halign
    set a := fromDayNum (firstAlignedFrom (toDayNum wp.fromDate) wp.payload.weekDay) with ha
    set as := rest.map (fun wp => fromDayNum (firstAlignedFrom (toDayNum wp.fromDate)
        wp.payload.weekDay)) with has
    have hgs : getStartDate 7 (wp :: rest)
        = some ((a :: as).foldl
            (fun mn dt => if valueOfStructured dt < valueOfStructured mn then dt else mn) a) := by
      unfold getStartDate
      rw [halign]
    have hfold : (a :: as).foldl
        (fun mn dt => if valueOfStructured dt < valueOfStructured mn then dt else mn) a
        = as.foldl
            (fun mn dt => if valueOfStructured dt < valueOfStructured mn then dt else mn) a := by
      rw [List.foldl_cons, if_neg (by omega)]
    obtain ⟨hmem, hle, hall⟩ := foldl_min_spec as a
    set r := as.foldl
        (fun mn dt => if valueOfStructured dt < valueOfStructured mn then dt else mn) a with hr
    have hrmem : r ∈ a :: as := by
      rcases hmem with he | hm
      · rw [he]; exact List.mem_cons_self a as
      · exact List.mem_cons_of_mem _ hm
    have hvalid : ∀ x ∈ a :: as, isValidDate x := by
      intro x hx
      rcases List.mem_cons.mp hx with rfl | hx
      · exact (fromDayNum_ok _).1
      · rw [has] at hx
        obtain ⟨w, _, rfl⟩ := List.mem_map.mp hx
        exact (fromDayNum_ok _).1
    refine ⟨r, by rw [hgs, hfold], ?_, ?_, ?_⟩
    · rw [List.map_cons, ← ha, ← has]
      exact hrmem
    · intro w hw
      have hwal : fromDayNum (firstAlignedFrom (toDayNum w.fromDate) w.payload.weekDay)
          ∈ a :: as := by
        rcases List.mem_cons.mp hw with rfl | hw
        · exact List.mem_cons_self a as
        · rw [has]
          exact List.mem_cons_of_mem _ (List.mem_map.mpr ⟨w, hw, rfl⟩)
      have hvle : valueOfStructured r ≤ valueOfStructured
          (fromDayNum (firstAlignedFrom (toDayNum w.fromDate) w.payload.weekDay)) := by
        rcases List.mem_cons.mp hwal with he | hm
        · rw [he]
          exact hle
        · exact hall _ hm
      have := (val_le_iff_toDayNum_le _ _ (hvalid r hrmem)
          (hvalid _ hwal)).mp hvle
      rwa [(fromDayNum_ok (firstAlignedFrom (toDayNum w.fromDate) w.payload.weekDay)).2] at this
    · intro w hw
      have hwdw := hwd w hw
      obtain ⟨x1, x2, x3, x4⟩ := firstAlignedFrom_spec (toDayNum w.fromDate) w.payload.weekDay
          hwdw.1 hwdw.2
      exact ⟨x1, x3, x4⟩

/-- Witness for C9: the start date of a concrete one-entry table exists. -/
theorem claimC9_witness :
    (getStartDate 7 [⟨⟨2024, 1, 1⟩, some ⟨2024, 1, 2⟩, ⟨3, 40⟩⟩]).isSome = true := by
  obtain ⟨m, hm, _⟩ := claimC9_getStartDate
      [⟨⟨2024, 1, 1⟩, some ⟨2024, 1, 2⟩, ⟨3, 40⟩⟩] (by decide)
      (by decide)
  rw [hm]
  rfl

/-- Claim C10: for a weekday in 0..6 the alignment helper terminates within 6
day-steps (fuel 7 suffices) and returns the first date at or after the input
whose weekday matches; for a weekday outside 0..6 it never terminates (returns
none for every fuel). -/
theorem claimC10_advanceToWeekDay (z wd : Int) :
    ((0 ≤ wd ∧ wd ≤ 6) →
      advanceToWeekDayF 7 z wd = some (firstAlignedFrom z wd) ∧
      z ≤ firstAlignedFrom z wd ∧ firstAlignedFrom z wd ≤ z + 6 ∧
      getDayNum (firstAlignedFrom z wd) = wd ∧
      ∀ w, z ≤ w → w < firstAlignedFrom z wd → getDayNum w ≠ wd) ∧
    (¬ (0 ≤ wd ∧ wd ≤ 6) → ∀ fuel, advanceToWeekDayF fuel z wd = none) := by
  constructor
  · intro h
    obtain ⟨x1, x2, x3, x4⟩ := firstAlignedFrom_spec z wd h.1 h.2
    exact ⟨advanceToWeekDayF_eq z wd h.1 h.2, x1, x2, x3, x4⟩
  · intro h fuel
    exact advanceToWeekDayF_none wd h fuel z

/-- Witness for C10 at the day number of 2024-01-01 (a Monday) and weekday 3:
the first Wednesday at or after it. -/
theorem claimC10_witness :
    advanceToWeekDayF 7 19723 3 = some (firstAlignedFrom 19723 3) :=
  ((claimC10_advanceToWeekDay 19723 3).1 (by norm_num)).1

end HoursWorked
